import Mathlib

/-!
Verification of the homebrew formula pipe (`internal/pipe/brew/brew.go`) of
ernesto27/goreleaser.

The pipe is embedded shallowly: Go strings are Lean `String`s (manipulated via
their character lists), the external collaborators (artifact checksums, the
template/placeholder-substitution engine, the hosting client, commit-author
resolution, file reads) are oracle functions collected in an `Externals`
record, and the effectful parts of `doRun` / `doPublish` return the written
files / issued network calls explicitly alongside their outcome.
-/

set_option autoImplicit false

namespace Brew

/-! ### Go standard-library string helpers used by brew.go (ASCII model) -/

/-- Go `unicode.IsSpace` restricted to the ASCII range: space, tab, newline,
carriage return, vertical tab, form feed. -/
def goIsSpace (c : Char) : Bool :=
  c = ' ' || c = '\t' || c = '\n' || c = '\r' || c = '\x0b' || c = '\x0c'

/-- Go `strings.TrimSpace` on the character-list representation. -/
def trimSpaceList (l : List Char) : List Char :=
  ((l.dropWhile goIsSpace).reverse.dropWhile goIsSpace).reverse

/-- Go `strings.TrimSpace`. -/
def trimSpace (s : String) : String := (trimSpaceList s.toList).asString

/-- Go `strings.TrimRight(s, " ")`: the cutset is the single space character. -/
def trimRightSpaces (l : List Char) : List Char :=
  (l.reverse.dropWhile (fun c => c = ' ')).reverse

/-- Go `strings.Split(s, "\n")` on character lists: the list of segments
between newline characters (always nonempty; `[] ↦ [[]]`). -/
def splitNl : List Char → List (List Char)
  | [] => [[]]
  | c :: rest =>
    let r := splitNl rest
    if c = '\n' then [] :: r else (c :: r.headI) :: r.tail

/-- Go `dropCR` of `bufio.ScanLines`: remove one trailing carriage return. -/
def dropCR (l : List Char) : List Char :=
  if l.getLast? = some '\r' then l.dropLast else l

/-- Drop a trailing empty segment, matching how `bufio.Scanner` emits no token
for the text after the final newline when that text is empty. -/
def stripLastEmpty (p : List (List Char)) : List (List Char) :=
  match p.reverse with
  | [] => p
  | last :: rest => if last = [] then rest.reverse else p

/-- The token sequence produced by a `bufio.Scanner` with the default
`ScanLines` split function. -/
def scanLines (l : List Char) : List (List Char) :=
  (stripLastEmpty (splitNl l)).map dropCR

/-- One output line of the sanitization loop in `doBuildFormula`:
`out.WriteString(strings.TrimRight(s.Text(), " ")); out.WriteByte('\n')`. -/
def sanitizeLine (t : List Char) : List Char := trimRightSpaces t ++ ['\n']

/-- The sanitization pass of `doBuildFormula` (lines 310-319 of brew.go) on
character lists: scan lines, trim trailing spaces, reassemble with `'\n'`. -/
def sanitizeList (l : List Char) : List Char :=
  ((scanLines l).map sanitizeLine).flatten

/-- The sanitization pass of `doBuildFormula` on strings. -/
def sanitize (s : String) : String := (sanitizeList s.toList).asString

/-- brew.go `split`: `strings.Split(strings.TrimSpace(s), "\n")`, with the
all-empty singleton collapsed to the empty list. -/
def split (s : String) : List String :=
  let parts := (splitNl (trimSpace s).toList).map List.asString
  match parts with
  | [x] => if x = "" then [] else parts
  | _ => parts

/-- Go `strings.ReplaceAll` for a single-character pattern, the only shape
used by `formulaNameFor`. -/
def replaceAll (a : Char) (b : List Char) (l : List Char) : List Char :=
  l.flatMap (fun c => if c = a then b else [c])

/-- Go `strings.isSeparator` restricted to the ASCII range: everything except
alphanumerics and underscore. -/
def isSeparator (c : Char) : Bool :=
  !(c.isDigit || ('a' ≤ c && c ≤ 'z') || ('A' ≤ c && c ≤ 'Z') || c = '_')

/-- The mapping loop of Go `strings.Title`: upper-case a character whose
predecessor is a separator; the initial predecessor is a space. -/
def titleAux : Char → List Char → List Char
  | _, [] => []
  | prev, c :: rest => (if isSeparator prev then c.toUpper else c) :: titleAux c rest

/-- Go `strings.Title` (ASCII model). -/
def stringsTitle (l : List Char) : List Char := titleAux ' ' l

/-- brew.go `formulaNameFor`: hyphens to spaces, underscores to spaces,
periods deleted, `@` to the literal `AT`, title-case, then remove spaces. -/
def formulaNameFor (name : String) : String :=
  let l0 := name.toList
  let l1 := replaceAll '-' [' '] l0
  let l2 := replaceAll '_' [' '] l1
  let l3 := replaceAll '.' [] l2
  let l4 := replaceAll '@' ['A', 'T'] l3
  (replaceAll ' ' [] (stringsTitle l4)).asString

/-- Escapes of Go `fmt.Sprintf("%q", ·)` for the ASCII printable strings and
common escapes occurring in install lines. -/
def goQuoteChar (c : Char) : List Char :=
  if c = '"' then ['\\', '"']
  else if c = '\\' then ['\\', '\\']
  else if c = '\n' then ['\\', 'n']
  else if c = '\t' then ['\\', 't']
  else if c = '\r' then ['\\', 'r']
  else [c]

/-- Go `fmt.Sprintf("%q", s)` (ASCII model). -/
def goQuote (s : String) : String :=
  ('"' :: s.toList.flatMap goQuoteChar ++ ['"']).asString

/-- Byte-wise (here: character-wise, the strings are ASCII) strict
lexicographic comparison, Go's `<` on strings, executable in the kernel. -/
def charListLt : List Char → List Char → Bool
  | [], [] => false
  | [], _ :: _ => true
  | _ :: _, [] => false
  | a :: as, b :: bs => if a < b then true else if b < a then false else charListLt as bs

/-- Go `a < b` on strings. -/
def strLt (a b : String) : Bool := charListLt a.toList b.toList

/-- The reflexive closure `a <= b` of the string comparison. -/
def strLe (a b : String) : Bool := !(strLt b a)

/-- Go `path.Join` / `filepath.Join` for the simple component lists used
here: join the nonempty components with a slash. -/
def filepathJoin (parts : List String) : String :=
  String.intercalate "/" (parts.filter (fun p => p ≠ ""))

/-! ### Data model -/

/-- One entry of the recipe's dependency list (`config.HomebrewDependency`). -/
structure HomebrewDependency where
  Name : String
  «Type» : String
deriving DecidableEq

/-- Model of `config.GitRepoRef`: a generic git remote. -/
structure GitRepoRef where
  URL : String
deriving DecidableEq

/-- The base side of a pull request (`config.PullRequestBase`). -/
structure PullRequestBase where
  Name : String
  Owner : String
  Branch : String
deriving DecidableEq

/-- Model of `config.PullRequest`: pull-request options of a repository reference. -/
structure PullRequestRef where
  Enabled : Bool
  Draft : Bool
  Base : PullRequestBase
deriving DecidableEq

/-- Model of `config.RepoRef`: the target repository of a recipe. -/
structure RepoRef where
  Owner : String
  Name : String
  Branch : String
  Token : String
  Git : GitRepoRef
  PullRequest : PullRequestRef
deriving DecidableEq

/-- Model of `config.Homebrew`: one brew recipe, restricted to the fields brew.go
reads. -/
structure Homebrew where
  Name : String
  Description : String
  Homepage : String
  License : String
  Repository : RepoRef
  CommitMessageTemplate : String
  Folder : String
  Caveats : String
  Install : String
  ExtraInstall : String
  Service : String
  PostInstall : String
  Test : String
  CustomRequire : String
  CustomBlock : String
  Plist : String
  Dependencies : List HomebrewDependency
  Conflicts : List String
  Goarm : String
  Goamd64 : String
  SkipUpload : String
  URLTemplate : String
  DownloadStrategy : String
  IDs : List String
deriving DecidableEq

/-- The values stored in an artifact's extra-attribute side channel that
brew.go reads: single binary name, bundled-binary list, recipe payload. -/
inductive ExtraValue where
  | str (s : String)
  | strs (l : List String)
  | brewCfg (c : Homebrew)
deriving DecidableEq

/-- The artifact kinds brew.go distinguishes; all other kinds are collapsed
into `other`. -/
inductive ArtifactType where
  | UploadableArchive
  | UploadableBinary
  | BrewTap
  | other (name : String)
deriving DecidableEq

/-- Model of `artifact.Artifact` restricted to the fields brew.go and its filters
read. `Format`, `ID` and `CanonicalUnibin` are modelled from the spec
(section 4.1): the artifact package itself is not part of the source under
verification; `CanonicalUnibin` marks the canonical representative kept by
the universal-binary-replacement filter. -/
structure Artifact where
  Name : String
  Path : String
  Goos : String
  Goarch : String
  Goarm : String
  Goamd64 : String
  Format : String
  ID : String
  CanonicalUnibin : Bool
  «Type» : ArtifactType
  Extra : List (String × ExtraValue)
deriving DecidableEq

/-- The slice of `ctx.Config` brew.go reads and the recipes. -/
structure Config where
  ProjectName : String
  Dist : String
  Brews : List Homebrew
deriving DecidableEq

/-- The prerelease component of the parsed version (`ctx.Semver`). -/
structure Semver where
  Prerelease : String
deriving DecidableEq

/-- The slice of `context.Context` brew.go reads: configuration, the artifact
registry, the version and its prerelease component. -/
structure Context where
  Config : Config
  Artifacts : List Artifact
  Version : String
  Semver : Semver
deriving DecidableEq

/-- The hosting-API client, reduced to the one capability brew.go tests for:
pull-request support (the `client.PullRequestOpener` type assertion). -/
structure HostClient where
  supportsPR : Bool
deriving DecidableEq

/-- Model of `releasePackage`: the per-artifact rendering unit. -/
structure releasePackage where
  DownloadURL : String
  SHA256 : String
  OS : String
  Arch : String
  DownloadStrategy : String
  Install : List String
deriving DecidableEq

/-- Model of `templateData`: the full rendering context assembled by `dataFor`. -/
structure templateData where
  Name : String
  Desc : String
  Homepage : String
  Version : String
  License : String
  Caveats : List String
  Dependencies : List HomebrewDependency
  Conflicts : List String
  Plist : String
  Service : List String
  PostInstall : List String
  Tests : List String
  CustomRequire : String
  CustomBlock : List String
  LinuxPackages : List releasePackage := []
  MacOSPackages : List releasePackage := []
  HasOnlyAmd64MacOsPkg : Bool := false
deriving DecidableEq

/-- The error outcomes of the pipe. `skip` is the non-fatal skip signal of
`pipe.Skip`; `multipleArchivesSameOS` is `ErrMultipleArchivesSameOS`;
`noArchivesFound` is `ErrNoArchivesFound` with its diagnostic fields;
`errStr` wraps propagated collaborator errors and `fmt.Errorf` messages. -/
inductive BrewError where
  | skip (reason : String)
  | multipleArchivesSameOS
  | noArchivesFound (goamd64 : String) (goarm : String) (ids : List String)
  | extraMissing (key : String)
  | errStr (msg : String)
deriving DecidableEq

/-- Model of `pipe.IsSkip`: only the `skip` constructor is a skip signal. -/
def BrewError.isSkip : BrewError → Bool
  | .skip _ => true
  | _ => false

/-- The mutating network calls `doPublish` can issue: a file creation
(via the generic git transport when `viaGit` is true, else via the
hosting-API client) and a pull-request creation. -/
inductive NetCall where
  | createFile (viaGit : Bool) (repoName : String) (author : String)
      (content : String) (gpath : String) (msg : String)
  | openPullRequest (baseName : String) (baseOwner : String)
      (baseBranch : String) (draft : Bool)
deriving DecidableEq

/-- The observable outcome of one `doRun`: its result (`none` on success),
the files written to the dist directory, and the artifacts appended to the
registry. -/
structure RunOutcome where
  result : Option BrewError
  writes : List (String × String)
  added : List Artifact
deriving DecidableEq

/-- The external collaborators of the pipe, as oracles: artifact checksum
computation, the placeholder-substitution engine (plain and artifact-scoped),
the hosting client's release-URL template and repo-reference templating, the
structural pass of the formula template, commit-author resolution, file
reads, token-scoped client construction, and the results of the two mutating
network calls. -/
structure Externals where
  checksum : Artifact → Except String String
  tmplApply : String → Except String String
  tmplApplyArt : Artifact → String → Except String String
  releaseURLTemplate : Except String String
  templateRef : RepoRef → Except String RepoRef
  structural : templateData → Except String String
  commitAuthor : Except String String
  readFile : String → Except String String
  newIfToken : HostClient → String → Except String HostClient
  createFileRes : Except String Unit
  openPRRes : Except String Unit

/-! ### Extra-attribute access -/

/-- Lookup in the artifact's extra-attribute map. -/
def lookupExtra (art : Artifact) (key : String) : Option ExtraValue :=
  (art.Extra.find? (fun p => p.1 = key)).map Prod.snd

/-- Model of `artifact.ExtraOr` at type `string`. Modelled from the spec (section 9):
a typed view of the side-channel map, falling back to the default when the
key is absent or the value has another type. -/
def extraOrStr (art : Artifact) (key : String) (dflt : String) : String :=
  match lookupExtra art key with
  | some (.str s) => s
  | _ => dflt

/-- Model of `artifact.ExtraOr` at type `[]string`. Modelled from the spec
(section 9), as `extraOrStr`. -/
def extraOrStrs (art : Artifact) (key : String) (dflt : List String) : List String :=
  match lookupExtra art key with
  | some (.strs l) => l
  | _ => dflt

/-! ### Sorting

`sort.Slice` is Go's unstable sort; for slices shorter than twelve elements
it runs plain insertion sort, which is the case for every slice sorted by
brew.go in the scenarios considered here. `goInsert` reproduces one round of
that insertion sort for an arbitrary (not necessarily order-like) `less`
function: the new element moves left past exactly the maximal run of
neighbours `e` with `less x e`. -/

/-- One insertion round of Go's insertion sort. -/
def goInsert {α : Type} (less : α → α → Bool) (sorted : List α) (x : α) : List α :=
  let rev := sorted.reverse
  (rev.dropWhile (fun e => less x e)).reverse ++ x :: (rev.takeWhile (fun e => less x e)).reverse

/-- Go's insertion sort (`sort.Slice` on short slices). -/
def goInsertionSort {α : Type} (less : α → α → Bool) (l : List α) : List α :=
  l.foldl (goInsert less) []

/-- The comparator returned by `lessFnFor`:
`list[i].OS > list[j].OS && list[i].Arch > list[j].Arch`. -/
def pkgLess (a b : releasePackage) : Bool :=
  strLt b.OS a.OS && strLt b.Arch a.Arch

/-- The dependency comparator of `dataFor`:
`cfg.Dependencies[i].Name < cfg.Dependencies[j].Name`. -/
def depLess (a b : HomebrewDependency) : Bool :=
  strLt a.Name b.Name

/-! ### Install-instruction derivation (`installs`) -/

/-- The install lines inserted into `installMap` by the kind switch of
`installs`: one `bin.install "name" => "bin"` line for an uploadable binary,
one `bin.install "bin"` line per bundled binary of an uploadable archive,
nothing for any other kind. -/
def installLines (art : Artifact) : List String :=
  match art.«Type» with
  | .UploadableBinary =>
    ["bin.install " ++ goQuote art.Name ++ " => " ++ goQuote (extraOrStr art "Binary" art.Name)]
  | .UploadableArchive =>
    (extraOrStrs art "Binaries" []).map (fun bin => "bin.install " ++ goQuote bin)
  | _ => []

/-- Insert a key into the key list unless already present: the effect of
`installMap[line] = true` on the key set. -/
def insertIfAbsent (l : List String) (x : String) : List String :=
  if x ∈ l then l else l ++ [x]

/-- The key set of `installMap` (the `keys` helper), in first-insertion
order; the subsequent `sort.Strings` makes the order irrelevant. -/
def mapKeys (lines : List String) : List String :=
  lines.foldl insertIfAbsent []

/-- The deduplicated, lexicographically sorted inferred install lines
(`result` after `sort.Strings(result)`). `sort.Strings` is modelled by
`List.insertionSort`; on the duplicate-free key list every correct sort
produces the same list. -/
def inferredInstalls (art : Artifact) : List String :=
  List.insertionSort (fun a b => strLe a b = true) (mapKeys (installLines art))

/-- brew.go `installs`: substituted explicit snippet if nonempty, else the
inferred lines; extra-install lines appended in both cases. -/
def installs (ext : Externals) (cfg : Homebrew) (art : Artifact) :
    Except String (List String) := do
  let extraInstall ← ext.tmplApplyArt art cfg.ExtraInstall
  let install ← ext.tmplApplyArt art cfg.Install
  if install ≠ "" then
    return split install ++ split extraInstall
  else
    return inferredInstalls art ++ split extraInstall

/-! ### Formula data assembly (`dataFor`) -/

/-- Increment the count stored under key `k` (`counts[pkg.OS+pkg.Arch]++`). -/
def bumpCount (k : String) : List (String × Nat) → List (String × Nat)
  | [] => [(k, 1)]
  | (k', n) :: rest => if k' = k then (k', n + 1) :: rest else (k', n) :: bumpCount k rest

/-- The count stored under key `k`. -/
def countOf (k : String) : List (String × Nat) → Nat
  | [] => 0
  | (k', n) :: rest => if k' = k then n else countOf k rest

/-- The per-artifact loop of `dataFor`: checksum, effective download-URL
template (recipe override, else the hosting client's release-URL template,
resolved once and kept), artifact-scoped substitution, install derivation,
package assembly, `(OS, Arch)` counting and routing into the OS-family
lists. -/
def dataForLoop (ext : Externals) (cfg : Homebrew) :
    List Artifact → List releasePackage → List releasePackage →
    List (String × Nat) → String →
    Except BrewError (List releasePackage × List releasePackage × List (String × Nat))
  | [], linux, mac, counts, _ => .ok (linux, mac, counts)
  | art :: rest, linux, mac, counts, urlTemplate =>
    match ext.checksum art with
    | .error e => .error (.errStr e)
    | .ok sum =>
      match (if urlTemplate = "" then ext.releaseURLTemplate else .ok urlTemplate) with
      | .error e => .error (.errStr e)
      | .ok urlT =>
        match ext.tmplApplyArt art urlT with
        | .error e => .error (.errStr e)
        | .ok url =>
          match installs ext cfg art with
          | .error e => .error (.errStr e)
          | .ok install =>
            let pkg : releasePackage :=
              { DownloadURL := url, SHA256 := sum, OS := art.Goos, Arch := art.Goarch,
                DownloadStrategy := cfg.DownloadStrategy, Install := install }
            let counts' := bumpCount (pkg.OS ++ pkg.Arch) counts
            if pkg.OS = "darwin" then
              dataForLoop ext cfg rest linux (mac ++ [pkg]) counts' urlT
            else if pkg.OS = "linux" then
              dataForLoop ext cfg rest (linux ++ [pkg]) mac counts' urlT
            else
              dataForLoop ext cfg rest linux mac counts' urlT

/-- brew.go `dataFor`: sort dependencies, assemble the static fields, run the
per-artifact loop, fail on any `(OS, Arch)` count above one, set the
single-AMD64-macOS flag, and sort both OS-family lists with `lessFnFor`. -/
def dataFor (ext : Externals) (ctx : Context) (cfg : Homebrew)
    (artifacts : List Artifact) : Except BrewError templateData :=
  let deps := goInsertionSort depLess cfg.Dependencies
  let base : templateData :=
    { Name := formulaNameFor cfg.Name, Desc := cfg.Description,
      Homepage := cfg.Homepage, Version := ctx.Version, License := cfg.License,
      Caveats := split cfg.Caveats, Dependencies := deps,
      Conflicts := cfg.Conflicts, Plist := cfg.Plist,
      Service := split cfg.Service, PostInstall := split cfg.PostInstall,
      Tests := split cfg.Test, CustomRequire := cfg.CustomRequire,
      CustomBlock := split cfg.CustomBlock }
  match dataForLoop ext cfg artifacts [] [] [] cfg.URLTemplate with
  | .error e => .error e
  | .ok (linux, mac, counts) =>
    if counts.any (fun p => decide (1 < p.2)) then
      .error .multipleArchivesSameOS
    else
      let hasOnly := match mac with
        | [p] => decide (p.Arch = "amd64")
        | _ => false
      .ok { base with
            LinuxPackages := goInsertionSort pkgLess linux,
            MacOSPackages := goInsertionSort pkgLess mac,
            HasOnlyAmd64MacOsPkg := hasOnly }

/-! ### Template rendering -/

/-- brew.go `doBuildFormula`: structural pass over the fixed formula
template, substitution pass through the placeholder engine, then the
sanitization pass. -/
def doBuildFormula (ext : Externals) (data : templateData) : Except String String := do
  let out ← ext.structural data
  let content ← ext.tmplApply out
  return sanitize content

/-- brew.go `buildFormula`: `dataFor` followed by `doBuildFormula`. -/
def buildFormula (ext : Externals) (ctx : Context) (brew : Homebrew)
    (artifacts : List Artifact) : Except BrewError String :=
  match dataFor ext ctx brew artifacts with
  | .error e => .error e
  | .ok data =>
    match doBuildFormula ext data with
    | .error e => .error (.errStr e)
    | .ok s => .ok s

/-! ### The Run phase (`doRun`, `runAll`) -/

/-- Modelled from the spec (section 4.1): the composed artifact filters of
`doRun`. The `artifact` package is not part of the source under
verification; the predicate follows the spec's filter description: OS in
the two supported families; architecture AMD64 at the configured
microarchitecture level, ARM64, universal, or ARM at the configured
revision; kind an uploadable archive in zip/tar.gz format or an uploadable
binary; only the canonical universal-binary representative; and the
artifact-ID allowlist when nonempty. -/
def brewFilter (brew : Homebrew) (a : Artifact) : Bool :=
  (a.Goos = "darwin" || a.Goos = "linux")
  && ((a.Goarch = "amd64" && a.Goamd64 = brew.Goamd64) || a.Goarch = "arm64"
      || a.Goarch = "all" || (a.Goarch = "arm" && a.Goarm = brew.Goarm))
  && (((a.Format = "zip" || a.Format = "tar.gz") && a.«Type» = .UploadableArchive)
      || a.«Type» = .UploadableBinary)
  && a.CanonicalUnibin
  && (brew.IDs.isEmpty || brew.IDs.contains a.ID)

/-- The three templated-field resolutions of `doRun` applied to its local
recipe copy: name, repository reference, skip-upload policy. -/
def resolveBrew (ext : Externals) (brew : Homebrew) : Except String Homebrew := do
  let name ← ext.tmplApply brew.Name
  let ref ← ext.templateRef brew.Repository
  let skipUpload ← ext.tmplApply brew.SkipUpload
  return { brew with Name := name, Repository := ref, SkipUpload := skipUpload }

/-- brew.go `doRun` for one recipe: skip on unset repository name, filter the
artifact registry, fail with `ErrNoArchivesFound` on an empty candidate set,
resolve the templated fields, build the formula, then write it and register
the formula artifact carrying the resolved recipe under the `BrewConfig`
extra key. -/
def doRun (ext : Externals) (ctx : Context) (brew : Homebrew) : RunOutcome :=
  if brew.Repository.Name = "" then
    ⟨some (.skip "brew.repository.name is not set"), [], []⟩
  else
    let archives := ctx.Artifacts.filter (brewFilter brew)
    if archives.isEmpty then
      ⟨some (.noArchivesFound brew.Goamd64 brew.Goarm brew.IDs), [], []⟩
    else
      match resolveBrew ext brew with
      | .error e => ⟨some (.errStr e), [], []⟩
      | .ok brew' =>
        match buildFormula ext ctx brew' archives with
        | .error e => ⟨some e, [], []⟩
        | .ok content =>
          let filename := brew'.Name ++ ".rb"
          let path := filepathJoin [ctx.Config.Dist, "homebrew", brew'.Folder, filename]
          ⟨none,
           [(path, content)],
           [{ Name := filename, Path := path, Goos := "", Goarch := "", Goarm := "",
              Goamd64 := "", Format := "", ID := "", CanonicalUnibin := false,
              «Type» := .BrewTap, Extra := [("BrewConfig", .brewCfg brew')] }]⟩

/-- brew.go `buildFormulaPath`: `path.Join(folder, filename)`. -/
def buildFormulaPath (folder filename : String) : String :=
  filepathJoin [folder, filename]

/-- Turn a recorded network-call result into the publish result. -/
def netRes (r : Except String Unit) : Option BrewError :=
  match r with
  | .ok _ => none
  | .error e => some (.errStr e)

/-- brew.go `doPublish` for one formula artifact, returning its result and
the list of mutating network calls it issued, in order. -/
def doPublish (ext : Externals) (ctx : Context) (cl : HostClient)
    (formula : Artifact) : Option BrewError × List NetCall :=
  match lookupExtra formula "BrewConfig" with
  | some (.brewCfg brew) =>
    if trimSpace brew.SkipUpload = "true" then
      (some (.skip "brew.skip_upload is set"), [])
    else if trimSpace brew.SkipUpload = "auto" ∧ ctx.Semver.Prerelease ≠ "" then
      (some (.skip "prerelease detected with 'auto' upload, skipping homebrew publish"), [])
    else
      let gpath := buildFormulaPath brew.Folder formula.Name
      match ext.tmplApply brew.CommitMessageTemplate with
      | .error e => (some (.errStr e), [])
      | .ok msg =>
        match ext.commitAuthor with
        | .error e => (some (.errStr e), [])
        | .ok author =>
          match ext.readFile formula.Path with
          | .error e => (some (.errStr e), [])
          | .ok content =>
            if brew.Repository.Git.URL ≠ "" then
              (netRes ext.createFileRes,
               [.createFile true brew.Repository.Name author content gpath msg])
            else
              match ext.newIfToken cl brew.Repository.Token with
              | .error e => (some (.errStr e), [])
              | .ok cl' =>
                if !brew.Repository.PullRequest.Enabled then
                  (netRes ext.createFileRes,
                   [.createFile false brew.Repository.Name author content gpath msg])
                else if !cl'.supportsPR then
                  (some (.errStr "client does not support pull requests"), [])
                else
                  match ext.createFileRes with
                  | .error e =>
                    (some (.errStr e),
                     [.createFile false brew.Repository.Name author content gpath msg])
                  | .ok _ =>
                    (netRes ext.openPRRes,
                     [.createFile false brew.Repository.Name author content gpath msg,
                      .openPullRequest brew.Repository.PullRequest.Base.Name
                        brew.Repository.PullRequest.Base.Owner
                        brew.Repository.PullRequest.Base.Branch
                        brew.Repository.PullRequest.Draft])
  | _ => (some (.extraMissing "BrewConfig"), [])

/-- Success predicate on an oracle result. -/
def exOk {ε α : Type} : Except ε α → Bool
  | .ok _ => true
  | .error _ => false

/-- All oracle calls of the Run phase succeed: the hypotheses under which the
control flow of `doRun` is decided by brew.go's own logic rather than by a
propagated collaborator failure. -/
def Externals.allOk (ext : Externals) : Prop :=
  (∀ a, exOk (ext.checksum a)) ∧
  (∀ s, exOk (ext.tmplApply s)) ∧
  (∀ a s, exOk (ext.tmplApplyArt a s)) ∧
  exOk ext.releaseURLTemplate ∧
  (∀ r, exOk (ext.templateRef r)) ∧
  (∀ d, exOk (ext.structural d))

/-! ### Concrete fixtures used by witnesses and counterexamples -/

/-- Oracles that always succeed: substitution is the identity, checksums and
auxiliary lookups return fixed values. -/
def extW : Externals where
  checksum := fun _ => .ok "c0ffee"
  tmplApply := fun s => .ok s
  tmplApplyArt := fun _ s => .ok s
  releaseURLTemplate := .ok "https://host/download"
  templateRef := fun r => .ok r
  structural := fun d => .ok d.Name
  commitAuthor := .ok "bot"
  readFile := fun _ => .ok "class Formula"
  newIfToken := fun c _ => .ok c
  createFileRes := .ok ()
  openPRRes := .ok ()

theorem extW_allOk : extW.allOk :=
  ⟨fun _ => rfl, fun _ => rfl, fun _ _ => rfl, rfl, fun _ => rfl, fun _ => rfl⟩

def repoW : RepoRef :=
  { Owner := "me", Name := "homebrew-tap", Branch := "main", Token := "",
    Git := { URL := "" },
    PullRequest := { Enabled := false, Draft := false,
                     Base := { Name := "", Owner := "", Branch := "" } } }

def brewW : Homebrew :=
  { Name := "test", Description := "", Homepage := "", License := "",
    Repository := repoW, CommitMessageTemplate := "update", Folder := "Formula",
    Caveats := "", Install := "", ExtraInstall := "", Service := "",
    PostInstall := "", Test := "", CustomRequire := "", CustomBlock := "",
    Plist := "", Dependencies := [], Conflicts := [], Goarm := "6",
    Goamd64 := "v1", SkipUpload := "", URLTemplate := "https://dl/file",
    DownloadStrategy := "", IDs := [] }

/-- An uploadable tar.gz archive artifact bundling one binary `t`. -/
def artW (name goos goarch goamd64 : String) : Artifact :=
  { Name := name, Path := "dist/" ++ name, Goos := goos, Goarch := goarch,
    Goarm := "", Goamd64 := goamd64, Format := "tar.gz", ID := "default",
    CanonicalUnibin := true, «Type» := .UploadableArchive,
    Extra := [("Binaries", .strs ["t"])] }

def artLinuxAmd : Artifact := artW "t_linux_amd64" "linux" "amd64" "v1"

def artLinuxArm64 : Artifact := artW "t_linux_arm64" "linux" "arm64" ""

def artMacArm1 : Artifact := artW "t_mac1" "darwin" "arm64" ""

def artMacArm2 : Artifact := artW "t_mac2" "darwin" "arm64" ""

/-- An uploadable binary artifact whose install name (the `"Binary"` extra)
is `b1`. -/
def artBinOne : Artifact :=
  { artW "t" "darwin" "amd64" "v1" with
      «Type» := .UploadableBinary, Extra := [("Binary", .str "b1")] }

/-- The same artifact except that its `"Binary"` extra is `b2`. -/
def artBinTwo : Artifact :=
  { artBinOne with Extra := [("Binary", .str "b2")] }

def ctxW : Context :=
  { Config := { ProjectName := "t", Dist := "dist", Brews := [brewW] },
    Artifacts := [artLinuxAmd, artLinuxArm64], Version := "1.0.0",
    Semver := { Prerelease := "" } }

def ctxEmptyW : Context := { ctxW with Artifacts := [] }

def ctxDupW : Context := { ctxW with Artifacts := [artMacArm1, artMacArm2] }

/-! ### C5: formula name mangling -/

/-- C5: `formulaNameFor` applies hyphen-to-space, underscore-to-space, period
deletion, `@` to the literal `AT`, title-casing, then space removal, in that
order (the definition mirrors the source line by line); in particular
`foo-bar` maps to `FooBar`, and `foo_bar@v6.0.0-rc` maps to
`FooBarATv600Rc`: the `@` became `AT` and all periods were removed before
title-casing. -/
theorem formulaNameFor_mangling :
    formulaNameFor "foo-bar" = "FooBar" ∧
    formulaNameFor "foo_bar@v6.0.0-rc" = "FooBarATv600Rc" :=
  ⟨rfl, rfl⟩

/-! ### C2: the no-archives error -/

/-- C2: when the composed selection filters yield zero artifacts, `doRun`
fails with `ErrNoArchivesFound` carrying exactly the recipe's configured
`goamd64`, `goarm` and artifact-ID allowlist, and performs no write and adds
no artifact. -/
theorem doRun_no_archives_error (ext : Externals) (ctx : Context) (brew : Homebrew)
    (hname : brew.Repository.Name ≠ "")
    (hempty : ctx.Artifacts.filter (brewFilter brew) = []) :
    doRun ext ctx brew =
      ⟨some (.noArchivesFound brew.Goamd64 brew.Goarm brew.IDs), [], []⟩ := by
  simp [doRun, hname, hempty]

/-- C2 witness: a run over an empty artifact registry. -/
theorem doRun_no_archives_error_witness :
    doRun extW ctxEmptyW brewW =
      ⟨some (.noArchivesFound "v1" "6" []), [], []⟩ :=
  doRun_no_archives_error extW ctxEmptyW brewW (by decide) rfl

/-! ### C9: empty repository name -/

/-- C9 counterexample: with an empty target repository name, `doRun` does not
fail with a fatal configuration error: it returns the `pipe.Skip` signal
`"brew.repository.name is not set"`, which the pipeline treats as a
non-fatal skip (`BrewError.isSkip`), contradicting the claim that this case
is a fatal per-recipe configuration error. -/
theorem doRun_empty_repo_name_counterexample :
    (doRun extW ctxW { brewW with Repository := { repoW with Name := "" } }).result
      = some (.skip "brew.repository.name is not set") ∧
    BrewError.isSkip (.skip "brew.repository.name is not set") = true :=
  ⟨rfl, rfl⟩

/-- C9 (amended): when a recipe's target repository name is empty, `doRun`
returns immediately with the non-fatal skip signal
`"brew.repository.name is not set"`, producing no partial output for that
recipe: no file is written and no artifact is added. -/
theorem doRun_empty_repo_name_skips (ext : Externals) (ctx : Context) (brew : Homebrew)
    (h : brew.Repository.Name = "") :
    doRun ext ctx brew = ⟨some (.skip "brew.repository.name is not set"), [], []⟩ ∧
    BrewError.isSkip (.skip "brew.repository.name is not set") = true := by
  refine ⟨?_, rfl⟩
  simp [doRun, h]

/-- C9 witness. -/
theorem doRun_empty_repo_name_skips_witness :
    doRun extW ctxW { brewW with Repository := { repoW with Name := "" } } =
      ⟨some (.skip "brew.repository.name is not set"), [], []⟩ ∧
    BrewError.isSkip (.skip "brew.repository.name is not set") = true :=
  doRun_empty_repo_name_skips extW ctxW _ rfl

/-! ### C3: the OS-family list ordering -/

/-- C3: evaluation of `dataFor` at the failing input. The comparator built by
`lessFnFor` conjoins the OS and architecture comparisons
(`OS > OS' && Arch > Arch'`), so within one OS-family list (where the OS
field is constant) it never orders any pair and the sort leaves the input
order in place: the same two linux packages come out in whichever order
they went in, and the first output is not sorted by architecture
descending. -/
theorem lessFnFor_sort_order_depends_on_input :
    (dataFor extW ctxW brewW [artLinuxAmd, artLinuxArm64]).toOption.map
        (fun d => d.LinuxPackages.map releasePackage.Arch) = some ["amd64", "arm64"] ∧
    (dataFor extW ctxW brewW [artLinuxArm64, artLinuxAmd]).toOption.map
        (fun d => d.LinuxPackages.map releasePackage.Arch) = some ["arm64", "amd64"] := by
  constructor <;> decide

/-! ### C7: skip-upload handling in doPublish -/

/-- C7: for every formula artifact carrying a recipe whose substituted
skip-upload value is the literal `"true"`, or is `"auto"` while the current
release version is a prerelease, `doPublish` returns the non-fatal skip
signal and issues no network call. -/
theorem doPublish_skip_upload (ext : Externals) (ctx : Context) (cl : HostClient)
    (formula : Artifact) (brew : Homebrew)
    (hcfg : lookupExtra formula "BrewConfig" = some (.brewCfg brew))
    (hskip : trimSpace brew.SkipUpload = "true" ∨
      (trimSpace brew.SkipUpload = "auto" ∧ ctx.Semver.Prerelease ≠ "")) :
    (∃ reason, (doPublish ext ctx cl formula).1 = some (.skip reason) ∧
      BrewError.isSkip (.skip reason) = true) ∧
    (doPublish ext ctx cl formula).2 = [] := by
  rcases hskip with h | ⟨h1, h2⟩
  · refine ⟨⟨"brew.skip_upload is set", ?_, rfl⟩, ?_⟩ <;> simp [doPublish, hcfg, h]
  · have hne : trimSpace brew.SkipUpload ≠ "true" := by rw [h1]; decide
    refine ⟨⟨"prerelease detected with 'auto' upload, skipping homebrew publish",
      ?_, rfl⟩, ?_⟩ <;> simp [doPublish, hcfg, hne, h1, h2]

/-- C7 witness: a recipe with skip-upload `"auto"` published while the
release is a prerelease (spec scenario C). -/
theorem doPublish_skip_upload_witness :
    (∃ reason,
      (doPublish extW { ctxW with Semver := { Prerelease := "rc1" } } ⟨true⟩
        { artW "t.rb" "" "" "" with
            Extra := [("BrewConfig", .brewCfg { brewW with SkipUpload := "auto" })] }).1
        = some (.skip reason) ∧ BrewError.isSkip (.skip reason) = true) ∧
    (doPublish extW { ctxW with Semver := { Prerelease := "rc1" } } ⟨true⟩
      { artW "t.rb" "" "" "" with
          Extra := [("BrewConfig", .brewCfg { brewW with SkipUpload := "auto" })] }).2
      = [] :=
  doPublish_skip_upload extW { ctxW with Semver := { Prerelease := "rc1" } } ⟨true⟩
    _ _ rfl (Or.inr ⟨rfl, by decide⟩)

/-! ### C8: pull-request capability check -/

/-- C8: when pull-request mode is enabled and the hosting client does not
support pull-request creation, `doPublish` fails with
`"client does not support pull requests"` and issues no mutating network
call at all: the capability check precedes the `CreateFile` call. -/
theorem doPublish_pull_request_capability (ext : Externals) (ctx : Context)
    (cl : HostClient) (formula : Artifact) (brew : Homebrew)
    (msg author content : String) (cl' : HostClient)
    (hcfg : lookupExtra formula "BrewConfig" = some (.brewCfg brew))
    (h1 : trimSpace brew.SkipUpload ≠ "true")
    (h2 : ¬(trimSpace brew.SkipUpload = "auto" ∧ ctx.Semver.Prerelease ≠ ""))
    (hmsg : ext.tmplApply brew.CommitMessageTemplate = .ok msg)
    (hauthor : ext.commitAuthor = .ok author)
    (hread : ext.readFile formula.Path = .ok content)
    (hgit : brew.Repository.Git.URL = "")
    (htok : ext.newIfToken cl brew.Repository.Token = .ok cl')
    (hpr : brew.Repository.PullRequest.Enabled = true)
    (hcap : cl'.supportsPR = false) :
    doPublish ext ctx cl formula =
      (some (.errStr "client does not support pull requests"), []) := by
  simp [doPublish, hcfg, h1, h2, hmsg, hauthor, hread, hgit, htok, hpr, hcap]

/-- A repository reference with pull-request mode enabled. -/
def repoPrW : RepoRef :=
  { repoW with PullRequest := ⟨true, false, ⟨"", "", ""⟩⟩ }

/-- A formula artifact carrying a recipe that publishes via pull request. -/
def formulaPrW : Artifact :=
  { artW "t.rb" "" "" "" with
      Extra := [("BrewConfig", .brewCfg { brewW with Repository := repoPrW })] }

/-- C8 witness: pull-request mode enabled against a client without
pull-request support (spec scenario D). -/
theorem doPublish_pull_request_capability_witness :
    doPublish extW ctxW ⟨false⟩ formulaPrW =
      (some (.errStr "client does not support pull requests"), []) :=
  doPublish_pull_request_capability extW ctxW ⟨false⟩ _ _ "update" "bot"
    "class Formula" ⟨false⟩ rfl (by decide) (by decide) rfl rfl rfl rfl rfl rfl rfl

/-! ### C4: install-instruction inference -/

/-- The comparison `charListLt` decides the core lexicographic order `List.lt`. -/
theorem charListLt_iff : ∀ (as bs : List Char), charListLt as bs = true ↔ List.lt as bs
  | [], [] => by
    constructor
    · intro h; exact absurd h (by decide)
    · intro h; cases h
  | [], b :: bs => by
    constructor
    · intro _; exact List.lt.nil b bs
    · intro _; rfl
  | a :: as, [] => by
    constructor
    · intro h; exact absurd h (by simp [charListLt])
    · intro h; cases h
  | a :: as, b :: bs => by
    constructor
    · intro h
      by_cases hab : a < b
      · exact List.lt.head as bs hab
      · by_cases hba : b < a
        · simp [charListLt, hab, hba] at h
        · exact List.lt.tail hab hba
            ((charListLt_iff as bs).1 (by simpa [charListLt, hab, hba] using h))
    · intro h
      cases h with
      | head _ _ hab => simp [charListLt, hab]
      | tail hab hba htl => simp [charListLt, hab, hba, (charListLt_iff as bs).2 htl]

/-- The comparison `strLt` decides the strict lexicographic order on strings. -/
theorem strLt_iff (a b : String) : strLt a b = true ↔ a < b := by
  unfold strLt
  rw [charListLt_iff, List.lt_iff_lex_lt]
  exact Iff.symm String.lt_iff_toList_lt

/-- The comparison `strLe` decides the lexicographic order on strings. -/
theorem strLe_iff (a b : String) : strLe a b = true ↔ a ≤ b := by
  show (!strLt b a) = true ↔ ¬b < a
  rw [← strLt_iff b a]
  cases strLt b a <;> simp

/-- Folding `insertIfAbsent` preserves duplicate-freedom. -/
theorem foldl_insertIfAbsent_nodup (lines : List String) :
    ∀ acc : List String, acc.Nodup → (lines.foldl insertIfAbsent acc).Nodup := by
  induction lines with
  | nil => intro acc h; exact h
  | cons x xs ih =>
    intro acc h
    refine ih _ ?_
    unfold insertIfAbsent
    by_cases hx : x ∈ acc
    · simpa [hx] using h
    · simp [hx, List.nodup_append, h]

/-- The key set of `installMap` is duplicate-free. -/
theorem mapKeys_nodup (lines : List String) : (mapKeys lines).Nodup :=
  foldl_insertIfAbsent_nodup lines [] List.nodup_nil

/-- C4 counterexample: the inferred install lines are not a pure function of
(kind, name, bundled-binaries extra) alone. For an uploadable binary the
code also reads the single-binary `"Binary"` extra
(`artifact.ExtraOr(*art, artifact.ExtraBinary, art.Name)`): the two
artifacts below agree on kind, name and the bundled-binaries `"Binaries"`
extra, yet their inferred install lines differ, because only their
`"Binary"` extras differ. -/
theorem installs_inferred_not_pure_counterexample :
    artBinOne.«Type» = artBinTwo.«Type» ∧
    artBinOne.Name = artBinTwo.Name ∧
    extraOrStrs artBinOne "Binaries" [] = extraOrStrs artBinTwo "Binaries" [] ∧
    inferredInstalls artBinOne ≠ inferredInstalls artBinTwo := by
  refine ⟨rfl, rfl, rfl, ?_⟩
  decide

/-- C4 (amended): with no explicit install snippet (the substituted snippet
is empty), `installs` returns exactly the inferred lines followed by the
extra-install lines; the inferred lines are lexicographically sorted and
deduplicated, are a pure function of the artifact's kind, its name, its
single-binary `"Binary"` extra attribute and its bundled-binaries
`"Binaries"` extra attribute, and an artifact whose kind is neither
uploadable binary nor uploadable archive yields zero inferred lines. -/
theorem installs_inferred_pure_sorted (ext : Externals) (cfg : Homebrew)
    (art : Artifact) (e : String)
    (hE : ext.tmplApplyArt art cfg.ExtraInstall = .ok e)
    (hI : ext.tmplApplyArt art cfg.Install = .ok "") :
    installs ext cfg art = .ok (inferredInstalls art ++ split e) ∧
    (inferredInstalls art).Sorted (· ≤ ·) ∧
    (inferredInstalls art).Nodup ∧
    (∀ art' : Artifact, art.«Type» = art'.«Type» → art.Name = art'.Name →
      extraOrStr art "Binary" art.Name = extraOrStr art' "Binary" art'.Name →
      extraOrStrs art "Binaries" [] = extraOrStrs art' "Binaries" [] →
      inferredInstalls art = inferredInstalls art') ∧
    ((art.«Type» ≠ .UploadableBinary ∧ art.«Type» ≠ .UploadableArchive) →
      inferredInstalls art = []) := by
  refine ⟨?_, ?_, ?_, ?_, ?_⟩
  · simp only [installs, hE, hI]; rfl
  · haveI ht : IsTotal String (fun a b => strLe a b = true) := ⟨fun a b => by
      rcases le_total a b with h | h
      · exact Or.inl ((strLe_iff a b).2 h)
      · exact Or.inr ((strLe_iff b a).2 h)⟩
    haveI htr : IsTrans String (fun a b => strLe a b = true) := ⟨fun a b c hab hbc =>
      (strLe_iff a c).2 (le_trans ((strLe_iff a b).1 hab) ((strLe_iff b c).1 hbc))⟩
    exact (List.sorted_insertionSort _ _).imp (fun h => (strLe_iff _ _).1 h)
  · exact ((List.perm_insertionSort _ _).nodup_iff).2 (mapKeys_nodup _)
  · intro art' hT hN hB hBs
    unfold inferredInstalls
    congr 1
    unfold mapKeys
    congr 1
    unfold installLines
    rw [← hT]
    cases hty : art.«Type» with
    | UploadableBinary => rw [hB, hN]
    | UploadableArchive => rw [hBs]
    | BrewTap => rfl
    | other n => rfl
  · rintro ⟨hb, ha⟩
    unfold inferredInstalls installLines
    cases hty : art.«Type» with
    | UploadableBinary => exact absurd hty hb
    | UploadableArchive => exact absurd hty ha
    | BrewTap => rfl
    | other n => rfl

/-- A copy of `artLinuxAmd` at another path: same kind, name and extras. -/
def artLinuxAmd2 : Artifact := { artLinuxAmd with Path := "dist2/t_linux_amd64" }

/-- C4 witness: inference on a concrete archive artifact, and invariance
under changing a field outside (kind, name, bundled binaries). -/
theorem installs_inferred_pure_sorted_witness :
    installs extW brewW artLinuxAmd = .ok (inferredInstalls artLinuxAmd ++ split "") ∧
    inferredInstalls artLinuxAmd = inferredInstalls artLinuxAmd2 := by
  have h := installs_inferred_pure_sorted extW brewW artLinuxAmd "" rfl rfl
  exact ⟨h.1, h.2.2.2.1 artLinuxAmd2 rfl rfl rfl rfl⟩

/-! ### C10: the recipe copy and the registry append -/

/-- Characterization of `exOk`. -/
theorem exOk_iff {ε α : Type} (x : Except ε α) : exOk x = true ↔ ∃ a, x = .ok a := by
  cases x <;> simp [exOk]

/-- When the artifact-scoped substitution oracle succeeds, `installs`
succeeds. -/
theorem installs_ok (ext : Externals) (hart : ∀ a s, exOk (ext.tmplApplyArt a s))
    (cfg : Homebrew) (art : Artifact) : ∃ l, installs ext cfg art = .ok l := by
  obtain ⟨e, he⟩ := (exOk_iff _).1 (hart art cfg.ExtraInstall)
  obtain ⟨i, hi⟩ := (exOk_iff _).1 (hart art cfg.Install)
  have hred : installs ext cfg art =
      if i ≠ "" then pure (split i ++ split e)
      else pure (inferredInstalls art ++ split e) := by
    unfold installs
    rw [he, hi]
    rfl
  by_cases h : i = ""
  · exact ⟨inferredInstalls art ++ split e, by rw [hred, if_neg (not_not_intro h)]; rfl⟩
  · exact ⟨split i ++ split e, by rw [hred, if_pos h]; rfl⟩

/-- The key under which `dataFor` counts an artifact: `pkg.OS ++ pkg.Arch`. -/
def artKey (a : Artifact) : String := a.Goos ++ a.Goarch

/-- When all oracles succeed, the `dataFor` loop completes, and its final
count table is the fold of `bumpCount` over the artifact keys. -/
theorem dataForLoop_ok (ext : Externals) (hck : ∀ a, exOk (ext.checksum a))
    (hurl : exOk ext.releaseURLTemplate) (hart : ∀ a s, exOk (ext.tmplApplyArt a s))
    (cfg : Homebrew) :
    ∀ (arts : List Artifact) (linux mac : List releasePackage)
      (counts : List (String × Nat)) (urlT : String),
      ∃ l m, dataForLoop ext cfg arts linux mac counts urlT =
        .ok (l, m, arts.foldl (fun cs a => bumpCount (artKey a) cs) counts) := by
  intro arts
  induction arts with
  | nil => intro linux mac counts urlT; exact ⟨linux, mac, rfl⟩
  | cons art rest ih =>
    intro linux mac counts urlT
    obtain ⟨sum, hsum⟩ := (exOk_iff _).1 (hck art)
    have hu : ∃ u, (if urlT = "" then ext.releaseURLTemplate else .ok urlT) = .ok u := by
      by_cases h : urlT = ""
      · simpa [h] using (exOk_iff _).1 hurl
      · exact ⟨urlT, by simp [h]⟩
    obtain ⟨u, hu⟩ := hu
    obtain ⟨url, hurl2⟩ := (exOk_iff _).1 (hart art u)
    obtain ⟨inst, hinst⟩ := installs_ok ext hart cfg art
    unfold dataForLoop
    simp only [hsum, hu, hurl2, hinst]
    by_cases h1 : art.Goos = "darwin"
    · rw [if_pos h1]
      simpa [artKey] using ih _ _ (bumpCount (art.Goos ++ art.Goarch) counts) u
    · rw [if_neg h1]
      by_cases h2 : art.Goos = "linux"
      · rw [if_pos h2]
        simpa [artKey] using ih _ _ (bumpCount (art.Goos ++ art.Goarch) counts) u
      · rw [if_neg h2]
        simpa [artKey] using ih _ _ (bumpCount (art.Goos ++ art.Goarch) counts) u

/-- Effect of one `bumpCount` on one counter. -/
theorem countOf_bumpCount (k k' : String) (c : List (String × Nat)) :
    countOf k (bumpCount k' c) = countOf k c + (if k' = k then 1 else 0) := by
  induction c with
  | nil =>
    by_cases h : k' = k <;> simp [bumpCount, countOf, h]
  | cons p rest ih =>
    obtain ⟨k0, n⟩ := p
    by_cases h1 : k0 = k'
    · subst h1
      by_cases h2 : k0 = k <;> simp [bumpCount, countOf, h2]
    · by_cases h2 : k0 = k
      · have hkk : ¬k' = k := fun h => h1 (h2.trans h.symm)
        have hk2 : ¬k = k' := fun h => h1 (h2.trans h)
        simp [bumpCount, countOf, h1, h2, hkk, hk2]
      · simp [bumpCount, countOf, h1, h2, ih]

/-- The fold of `bumpCount` counts key occurrences. -/
theorem countOf_foldl (k : String) :
    ∀ (arts : List Artifact) (c : List (String × Nat)),
      countOf k (arts.foldl (fun cs a => bumpCount (artKey a) cs) c) =
        countOf k c + arts.countP (fun a => decide (artKey a = k)) := by
  intro arts
  induction arts with
  | nil => intro c; simp
  | cons a rest ih =>
    intro c
    rw [List.foldl_cons, ih, countOf_bumpCount, List.countP_cons]
    by_cases h : artKey a = k
    · simp [h]; omega
    · simp [h]

/-- A counter of at least two makes the duplicate check fire. -/
theorem countOf_ge_two_any (k : String) :
    ∀ c : List (String × Nat), 2 ≤ countOf k c →
      c.any (fun p => decide (1 < p.2)) = true := by
  intro c
  induction c with
  | nil => intro h; simp [countOf] at h
  | cons p rest ih =>
    obtain ⟨k0, n⟩ := p
    intro h
    by_cases hk : k0 = k
    · simp [countOf, hk] at h
      simp [List.any_cons]
      left
      omega
    · simp [countOf, hk] at h
      simp [List.any_cons, ih h]

/-- When all oracles succeed, `dataFor` fails with
`ErrMultipleArchivesSameOS` on any artifact list in which some `(OS, Arch)`
pair occurs at least twice. -/
theorem dataFor_duplicate (ext : Externals) (hok : ext.allOk) (ctx : Context)
    (cfg : Homebrew) (arts : List Artifact) (o ar : String)
    (hdup : 2 ≤ arts.countP (fun a => decide (a.Goos = o ∧ a.Goarch = ar))) :
    dataFor ext ctx cfg arts = .error .multipleArchivesSameOS := by
  obtain ⟨l, m, hloop⟩ :=
    dataForLoop_ok ext hok.1 hok.2.2.2.1 hok.2.2.1 cfg arts [] [] [] cfg.URLTemplate
  have hcnt : 2 ≤ countOf (o ++ ar)
      (arts.foldl (fun cs a => bumpCount (artKey a) cs) []) := by
    rw [countOf_foldl]
    simp only [countOf, Nat.zero_add]
    calc 2 ≤ arts.countP (fun a => decide (a.Goos = o ∧ a.Goarch = ar)) := hdup
    _ ≤ arts.countP (fun a => decide (artKey a = o ++ ar)) := by
        refine List.countP_mono_left ?_
        intro a _ h
        simp only [decide_eq_true_eq] at h ⊢
        rw [artKey, h.1, h.2]
  have hany := countOf_ge_two_any (o ++ ar) _ hcnt
  unfold dataFor
  simp only [hloop]
  rw [if_pos hany]

/-- When the plain substitution and repo-templating oracles succeed,
`resolveBrew` succeeds. -/
theorem resolveBrew_ok (ext : Externals) (htm : ∀ s, exOk (ext.tmplApply s))
    (href : ∀ r, exOk (ext.templateRef r)) (brew : Homebrew) :
    ∃ brew', resolveBrew ext brew = .ok brew' := by
  obtain ⟨n, hn⟩ := (exOk_iff _).1 (htm brew.Name)
  obtain ⟨r, hr⟩ := (exOk_iff _).1 (href brew.Repository)
  obtain ⟨sk, hsk⟩ := (exOk_iff _).1 (htm brew.SkipUpload)
  refine ⟨{ brew with Name := n, Repository := r, SkipUpload := sk }, ?_⟩
  unfold resolveBrew
  rw [hn, hr, hsk]
  rfl

/-- C1: whenever two or more of the filtered artifacts share the same
`(OS, architecture)` pair and every oracle succeeds, the assembly fails with
the dedicated `ErrMultipleArchivesSameOS` error — `dataFor` returns exactly
that error for any recipe — and the failing `doRun` writes no file and adds
no artifact. -/
theorem dataFor_duplicate_os_arch_fails (ext : Externals) (ctx : Context)
    (brew : Homebrew) (o ar : String)
    (hok : ext.allOk) (hname : brew.Repository.Name ≠ "")
    (hdup : 2 ≤ (ctx.Artifacts.filter (brewFilter brew)).countP
        (fun a => decide (a.Goos = o ∧ a.Goarch = ar))) :
    (∀ cfg, dataFor ext ctx cfg (ctx.Artifacts.filter (brewFilter brew)) =
      .error .multipleArchivesSameOS) ∧
    doRun ext ctx brew = ⟨some .multipleArchivesSameOS, [], []⟩ := by
  refine ⟨fun cfg => dataFor_duplicate ext hok ctx cfg _ o ar hdup, ?_⟩
  have hne : ((ctx.Artifacts.filter (brewFilter brew)).isEmpty) = false := by
    rcases h : ctx.Artifacts.filter (brewFilter brew) with _ | ⟨a, l⟩
    · rw [h] at hdup; simp [List.countP, List.countP.go] at hdup
    · simp [List.isEmpty]
  obtain ⟨brew', hres⟩ := resolveBrew_ok ext hok.2.1 hok.2.2.2.2.1 brew
  have hbf : buildFormula ext ctx brew' (ctx.Artifacts.filter (brewFilter brew)) =
      .error .multipleArchivesSameOS := by
    unfold buildFormula
    rw [dataFor_duplicate ext hok ctx brew' _ o ar hdup]
  simp only [doRun]
  rw [if_neg hname]
  rw [hne]  -- reduce the isEmpty condition
  simp only [Bool.false_eq_true, if_false]
  rw [hres]
  simp only [hbf]

/-- C1 witness: two macOS/ARM64 archives (spec scenario B). -/
theorem dataFor_duplicate_os_arch_fails_witness :
    (dataFor extW ctxDupW brewW (ctxDupW.Artifacts.filter (brewFilter brewW)) =
      .error .multipleArchivesSameOS) ∧
    doRun extW ctxDupW brewW = ⟨some .multipleArchivesSameOS, [], []⟩ := by
  have h := dataFor_duplicate_os_arch_fails extW ctxDupW brewW "darwin" "arm64"
    extW_allOk (by decide) (by decide)
  exact ⟨h.1 brewW, h.2⟩

/-! ### C6: sanitization -/

/-- The splitter `splitNl` never returns the empty list of segments. -/
theorem splitNl_ne_nil : ∀ l : List Char, splitNl l ≠ []
  | [] => by simp [splitNl]
  | c :: rest => by
    simp only [splitNl]
    by_cases h : c = '\n' <;> simp [h]

/-- Segments produced by `splitNl` contain no newline. -/
theorem mem_splitNl_no_nl : ∀ (l t : List Char), t ∈ splitNl l → '\n' ∉ t := by
  intro l
  induction l with
  | nil =>
    intro t ht
    simp [splitNl] at ht
    simp [ht]
  | cons c rest ih =>
    intro t ht
    simp only [splitNl] at ht
    by_cases h : c = '\n'
    · rw [if_pos h] at ht
      rcases List.mem_cons.1 ht with h1 | h1
      · simp [h1]
      · exact ih t h1
    · rcases hr : splitNl rest with _ | ⟨r0, rs⟩
      · exact absurd hr (splitNl_ne_nil rest)
      · rw [if_neg h, hr] at ht
        simp only [List.headI_cons, List.tail_cons] at ht
        rcases List.mem_cons.1 ht with h1 | h1
        · subst h1
          intro hmem
          rcases List.mem_cons.1 hmem with h2 | h2
          · exact h h2.symm
          · exact ih r0 (by rw [hr]; exact List.mem_cons_self r0 rs) h2
        · exact ih t (by rw [hr]; exact List.mem_cons_of_mem r0 h1)

/-- Characters of `splitNl` segments come from the input. -/
theorem mem_splitNl_subset : ∀ (l t : List Char), t ∈ splitNl l → ∀ c ∈ t, c ∈ l := by
  intro l
  induction l with
  | nil =>
    intro t ht c hc
    simp [splitNl] at ht
    subst ht
    simp at hc
  | cons a rest ih =>
    intro t ht c hc
    simp only [splitNl] at ht
    by_cases h : a = '\n'
    · rw [if_pos h] at ht
      rcases List.mem_cons.1 ht with h1 | h1
      · subst h1; simp at hc
      · exact List.mem_cons_of_mem a (ih t h1 c hc)
    · rcases hr : splitNl rest with _ | ⟨r0, rs⟩
      · exact absurd hr (splitNl_ne_nil rest)
      · rw [if_neg h, hr] at ht
        simp only [List.headI_cons, List.tail_cons] at ht
        rcases List.mem_cons.1 ht with h1 | h1
        · subst h1
          rcases List.mem_cons.1 hc with h2 | h2
          · exact h2 ▸ List.mem_cons_self a rest
          · refine List.mem_cons_of_mem a (ih r0 ?_ c h2)
            rw [hr]; exact List.mem_cons_self r0 rs
        · refine List.mem_cons_of_mem a (ih t ?_ c hc)
          rw [hr]; exact List.mem_cons_of_mem r0 h1

/-- Splitting a newline-free segment followed by a newline peels it off. -/
theorem splitNl_append_nl : ∀ (t r : List Char), '\n' ∉ t →
    splitNl (t ++ '\n' :: r) = t :: splitNl r := by
  intro t
  induction t with
  | nil => intro r _; simp [splitNl]
  | cons c t ih =>
    intro r h
    have hc : c ≠ '\n' := fun hh => h (hh ▸ List.mem_cons_self c t)
    have ht : '\n' ∉ t := fun hh => h (List.mem_cons_of_mem c hh)
    simp only [List.cons_append, splitNl, List.append_eq]
    rw [ih r ht, if_neg hc]
    simp

/-- Splitting a flattened list of newline-terminated, newline-free segments
recovers the segments plus a final empty segment. -/
theorem splitNl_flatten : ∀ ts : List (List Char), (∀ t ∈ ts, '\n' ∉ t) →
    splitNl ((ts.map (fun t => t ++ ['\n'])).flatten) = ts ++ [[]] := by
  intro ts
  induction ts with
  | nil => intro _; simp [splitNl]
  | cons t ts ih =>
    intro h
    have h1 : '\n' ∉ t := h t (List.mem_cons_self t ts)
    have h2 : ∀ u ∈ ts, '\n' ∉ u := fun u hu => h u (List.mem_cons_of_mem t hu)
    simp only [List.map_cons, List.flatten_cons]
    rw [List.append_assoc, List.singleton_append, splitNl_append_nl t _ h1, ih h2]
    rfl

/-- Dropping the trailing empty segment. -/
theorem stripLastEmpty_append (xs : List (List Char)) :
    stripLastEmpty (xs ++ [[]]) = xs := by
  unfold stripLastEmpty
  rw [List.reverse_append]
  simp

/-- Segments kept by `stripLastEmpty` come from the input. -/
theorem mem_stripLastEmpty (p : List (List Char)) (t : List Char)
    (h : t ∈ stripLastEmpty p) : t ∈ p := by
  unfold stripLastEmpty at h
  rcases hp : p.reverse with _ | ⟨last, rest⟩ <;> simp only [hp] at h
  · exact h
  · by_cases hl : last = []
    · rw [if_pos hl] at h
      have hp2 : p = rest.reverse ++ [last] := by
        have := congrArg List.reverse hp
        simpa using this
      rw [hp2]
      exact List.mem_append_left _ h
    · rw [if_neg hl] at h
      exact h

/-- The helper `dropCR` only removes characters. -/
theorem dropCR_subset (t : List Char) : dropCR t ⊆ t := by
  unfold dropCR
  split
  · exact List.dropLast_subset t
  · exact fun _ h => h

/-- The helper `trimRightSpaces` only removes characters. -/
theorem trimRightSpaces_subset (t : List Char) : trimRightSpaces t ⊆ t := by
  intro c hc
  unfold trimRightSpaces at hc
  rw [List.mem_reverse] at hc
  exact List.mem_reverse.1 ((List.dropWhile_sublist _).subset hc)

/-- The helper `dropCR` is the identity on carriage-return-free segments. -/
theorem dropCR_of_no_cr (t : List Char) (h : '\r' ∉ t) : dropCR t = t := by
  unfold dropCR
  rw [if_neg]
  intro hl
  exact h (List.mem_of_getLast?_eq_some hl)

/-- The combinator `dropWhile` is idempotent. -/
theorem dropWhile_idem {α : Type} (p : α → Bool) (l : List α) :
    (l.dropWhile p).dropWhile p = l.dropWhile p := by
  induction l with
  | nil => rfl
  | cons a l ih =>
    by_cases h : p a
    · simp [List.dropWhile_cons, h, ih]
    · simp [List.dropWhile_cons, h]

/-- Space trimming is idempotent. -/
theorem trimRightSpaces_idem (t : List Char) :
    trimRightSpaces (trimRightSpaces t) = trimRightSpaces t := by
  unfold trimRightSpaces
  rw [List.reverse_reverse, dropWhile_idem]

/-- A trimmed segment does not end in a space. -/
theorem trimRightSpaces_getLast (t : List Char) :
    (trimRightSpaces t).getLast? ≠ some ' ' := by
  unfold trimRightSpaces
  rw [List.getLast?_reverse]
  intro h
  have hd := List.head?_dropWhile_not (fun c => decide (c = ' ')) t.reverse
  rw [h] at hd
  simp at hd

/-- Scanner tokens contain no newline. -/
theorem mem_scanLines_no_nl (l t : List Char) (h : t ∈ scanLines l) : '\n' ∉ t := by
  unfold scanLines at h
  rcases List.mem_map.1 h with ⟨u, hu, he⟩
  subst he
  intro hc
  exact mem_splitNl_no_nl l u (mem_stripLastEmpty _ _ hu) (dropCR_subset u hc)

/-- Scanner tokens of carriage-return-free input are carriage-return-free. -/
theorem mem_scanLines_no_cr (l : List Char) (hl : '\r' ∉ l) (t : List Char)
    (h : t ∈ scanLines l) : '\r' ∉ t := by
  unfold scanLines at h
  rcases List.mem_map.1 h with ⟨u, hu, he⟩
  subst he
  intro hc
  exact hl (mem_splitNl_subset l u (mem_stripLastEmpty _ _ hu) '\r' (dropCR_subset u hc))

/-- Splitting sanitized output: the trimmed tokens plus a final empty
segment. -/
theorem sanitizeList_splitNl (l : List Char) :
    splitNl (sanitizeList l) = (scanLines l).map trimRightSpaces ++ [[]] := by
  have hnl : ∀ t ∈ (scanLines l).map trimRightSpaces, '\n' ∉ t := by
    intro t ht
    rcases List.mem_map.1 ht with ⟨u, hu, he⟩
    subst he
    intro hc
    exact mem_scanLines_no_nl l u hu (trimRightSpaces_subset u hc)
  have h1 : sanitizeList l =
      (((scanLines l).map trimRightSpaces).map (fun t => t ++ ['\n'])).flatten := by
    unfold sanitizeList
    rw [List.map_map]
    rfl
  rw [h1, splitNl_flatten _ hnl]

/-- Re-scanning sanitized output recovers the trimmed tokens (up to the
carriage-return drop). -/
theorem scanLines_sanitizeList (l : List Char) :
    scanLines (sanitizeList l) =
      (scanLines l).map (fun t => dropCR (trimRightSpaces t)) := by
  show (stripLastEmpty (splitNl (sanitizeList l))).map dropCR = _
  rw [sanitizeList_splitNl, stripLastEmpty_append, List.map_map]
  rfl

/-- No line of sanitized output ends in a space. -/
theorem sanitizeList_no_trailing_space (l : List Char) :
    ∀ t ∈ splitNl (sanitizeList l), t.getLast? ≠ some ' ' := by
  intro t ht
  rw [sanitizeList_splitNl] at ht
  rcases List.mem_append.1 ht with h1 | h1
  · rcases List.mem_map.1 h1 with ⟨u, _, he⟩
    subst he
    exact trimRightSpaces_getLast u
  · rcases List.mem_singleton.1 h1 with rfl
    simp

/-- On carriage-return-free input, sanitization is idempotent. -/
theorem sanitizeList_idem (l : List Char) (hl : '\r' ∉ l) :
    sanitizeList (sanitizeList l) = sanitizeList l := by
  have key : scanLines (sanitizeList l) = (scanLines l).map trimRightSpaces := by
    rw [scanLines_sanitizeList]
    apply List.map_congr_left
    intro t ht
    exact dropCR_of_no_cr _
      (fun hc => mem_scanLines_no_cr l hl t ht (trimRightSpaces_subset t hc))
  show ((scanLines (sanitizeList l)).map sanitizeLine).flatten = sanitizeList l
  rw [key, List.map_map]
  unfold sanitizeList
  congr 1
  apply List.map_congr_left
  intro t _
  show sanitizeLine (trimRightSpaces t) = sanitizeLine t
  unfold sanitizeLine
  rw [trimRightSpaces_idem]

/-- C6 counterexample: the sanitization pass of `doBuildFormula` trims only
space characters, not all horizontal whitespace — `"a\t\n"`, whose line ends
in a tab, passes through unchanged — and the pass is not idempotent on
arbitrary text: for `"a\r \n"` one pass yields `"a\r\n"` (the carriage
return survives because the trailing space hid it from the scanner's
carriage-return drop), while a second pass yields `"a\n"`. -/
theorem sanitize_claim_counterexample :
    sanitize "a\t\n" = "a\t\n" ∧
    sanitize (sanitize "a\r \n") ≠ sanitize "a\r \n" := by
  constructor
  · rfl
  · decide

/-- C6 (amended): the sanitization pass of `doBuildFormula` leaves no line
of its output ending in a space character (U+0020), and it is idempotent on
carriage-return-free input: re-sanitizing such output changes nothing. -/
theorem sanitize_spaces_idempotent (s : String) :
    (∀ t ∈ splitNl (sanitize s).toList, t.getLast? ≠ some ' ') ∧
    ('\r' ∉ s.toList → sanitize (sanitize s) = sanitize s) := by
  have hq : (sanitize s).toList = sanitizeList s.toList := rfl
  constructor
  · rw [hq]
    exact sanitizeList_no_trailing_space s.toList
  · intro h
    show (sanitizeList (sanitize s).toList).asString = sanitize s
    rw [hq, sanitizeList_idem s.toList h]
    rfl

/-- C6 witness. -/
theorem sanitize_spaces_idempotent_witness :
    (['a', 'b', 'c'] : List Char).getLast? ≠ some ' ' ∧
    sanitize (sanitize "abc  \n") = sanitize "abc  \n" :=
  ⟨(sanitize_spaces_idempotent "abc  \n").1 ['a', 'b', 'c'] (by decide),
   (sanitize_spaces_idempotent "abc  \n").2 (by decide)⟩

end Brew
